import Mathlib

/-!
# LeaderSync leaderboard engine — verification of spec claims

Shallow embedding of the LeaderSync leaderboard service core
(`src/utils/memory.ts`, the module imported by the score-ingestion
handler; referred to below by its class names `SkipList`,
`WriteAheadLog`, `LeaderboardEngine`).

JS strings are modelled as `List Char` (code-unit sequences); JS numbers
holding scores as `Int` (all scores in play are integers); a JS `Date`
is modelled by the string its `toString()` renders to (`ctimeStr`),
which is what the WAL serializer interpolates.

The skip list's probabilistic tower of forward pointers only accelerates
the search: at every level the walk advances while the next node's key
is strictly smaller than the probe key, and the per-level lists are
sublists of the level-0 list, so `update[0]` — the only pointer the
duplicate check and the level-0 splice depend on — is always the last
level-0 node whose key precedes the probe key. The level-0 chain is
therefore modelled directly as a list of nodes, and `insertScore`
as the deterministic level-0 effect of `SkipList.insertScore`.
-/

namespace LeaderSync

/-- A JS string: a sequence of code units. -/
abbrev JStr := List Char

/-- JS `<` on strings: lexicographic comparison of code units. -/
def strLt : JStr → JStr → Bool
  | _, [] => false
  | [], _ :: _ => true
  | a :: as, b :: bs => if a < b then true else if b < a then false else strLt as bs

/-- Payload of a level-0 `SkipListNode`: `user_id`, `game_id`, `score`
(`created_at` plays no role in any operation and is omitted). -/
structure Node where
  user_id : JStr
  game_id : JStr
  score : Int
deriving Repr, DecidableEq

/-- Row of `ILeaderboard` as produced by `getTopK`. -/
structure Row where
  user_id : JStr
  score : Int
  rank : Nat
  game_id : JStr
deriving Repr, DecidableEq

/-- The search condition of `SkipList.insertScore`: the walk advances past
node `n` while `n.score > score || (n.score === score && n.user_id < user_id)`. -/
def nodeLtB (n : Node) (user_id : JStr) (score : Int) : Bool :=
  decide (n.score > score) || (n.score == score && strLt n.user_id user_id)

/-- Level-0 effect of `SkipList.insertScore`: walk past nodes strictly
preceding the probe key; if the first non-preceding node carries the same
`user_id`, overwrite its `score` in place; otherwise splice in a new node. -/
def insertScore (e : Node) : List Node → List Node
  | [] => [e]
  | n :: rest =>
    if nodeLtB n e.user_id e.score then n :: insertScore e rest
    else if n.user_id = e.user_id then { n with score := e.score } :: rest
    else e :: n :: rest

/-- `SkipList.getTopK` loop: walk level 0 from the header, pushing rows
while `result.length < k`, with `rank` starting at 1. `k` is a JS number,
so the comparison is over `Int` (a negative `k` makes the guard false at
once). `len` tracks `result.length`. -/
def getTopKAux (k : Int) : List Node → Nat → Nat → List Row
  | [], _, _ => []
  | n :: rest, rank, len =>
    if (len : Int) < k then
      { user_id := n.user_id, score := n.score, rank := rank, game_id := n.game_id }
        :: getTopKAux k rest (rank + 1) (len + 1)
    else []

/-- `SkipList.getTopK`. -/
def getTopK (k : Int) (l : List Node) : List Row :=
  getTopKAux k l 1 0

/-- `SkipList.getRank` loop: 1-based position of the first level-0 node
whose `user_id` matches, `-1` when none does. -/
def getRankAux (u : JStr) : List Node → Nat → Int
  | [], _ => -1
  | n :: rest, rank => if n.user_id = u then (rank : Int) else getRankAux u rest (rank + 1)

/-- `SkipList.getRank`. -/
def getRank (u : JStr) (l : List Node) : Int :=
  getRankAux u l 1

/-- `SkipList.getScore`: score of the first level-0 node whose `user_id`
matches, `-1` when none does. -/
def getScore (u : JStr) : List Node → Int
  | [] => -1
  | n :: rest => if n.user_id = u then n.score else getScore u rest

/-- A shard state reachable by a sequence of upserts starting from the
empty skip list. -/
def applyOps (ops : List Node) : List Node :=
  ops.foldl (fun l e => insertScore e l) []

/-- `IScoreDetails`: the write input. `ctime` is a JS `Date`; the WAL
serializer interpolates it into a template string, so it is modelled here
by the string `Date.prototype.toString()` renders (e.g.
`"Sun Oct 12 2025 10:00:00 GMT+0000 (Coordinated Universal Time)"`). -/
structure ScoreDetails where
  user_id : JStr
  game_id : JStr
  score : Int
  ctimeStr : JStr
deriving Repr, DecidableEq

/-- The skip-list payload carried by an accepted write. -/
def toNode (e : ScoreDetails) : Node :=
  ⟨e.user_id, e.game_id, e.score⟩

/-- Decimal digits of `n`, most significant first; structural recursion on
a fuel argument so that the kernel can evaluate it (`fuel` bounds the digit
count: the result is the full digit string whenever `n < 10 ^ fuel`). -/
def natDigitsAux : Nat → Nat → JStr
  | 0, _ => []
  | fuel + 1, n =>
    if n < 10 then [Nat.digitChar n]
    else natDigitsAux fuel (n / 10) ++ [Nat.digitChar (n % 10)]

/-- Decimal digits of `n`, most significant first, as rendered by JS
number-to-string conversion for integral values (`n + 1` digits always
suffice since `n < 10 ^ (n + 1)`). -/
def natDigits (n : Nat) : JStr :=
  natDigitsAux (n + 1) n

/-- JS number-to-string conversion for an integral value: base-10 digits,
`'-'`-prefixed when negative. -/
def intRepr (i : Int) : JStr :=
  if i < 0 then '-' :: natDigits i.natAbs else natDigits i.natAbs

/-- The line `WriteAheadLog.append` writes:
`` `${entry.user_id}, ${entry.game_id}, ${entry.score}, ${entry.ctime}\n` ``. -/
def walLine (e : ScoreDetails) : JStr :=
  e.user_id ++ (',' :: ' ' :: e.game_id) ++ (',' :: ' ' :: intRepr e.score)
    ++ (',' :: ' ' :: e.ctimeStr) ++ ['\n']

/-- The characters JS `String.prototype.trim` removes (the ones that can
occur in the strings at hand). -/
def isJsWhitespace (c : Char) : Bool :=
  c == ' ' || c == '\t' || c == '\n' || c == '\r' || c == '\x0b' || c == '\x0c'

/-- JS `String.prototype.trim`. -/
def jsTrim (s : JStr) : JStr :=
  ((s.dropWhile isJsWhitespace).reverse.dropWhile isJsWhitespace).reverse

/-- JS `String.prototype.split` with a single-character separator: always
returns a non-empty list of (possibly empty) fields. -/
def jsSplit (sep : Char) : JStr → List JStr
  | [] => [[]]
  | c :: cs =>
    if c = sep then [] :: jsSplit sep cs
    else
      match jsSplit sep cs with
      | [] => [[c]]
      | f :: rest => (c :: f) :: rest

/-- Numeric value of a decimal digit character. -/
def digitVal (c : Char) : Nat :=
  c.toNat - 48

/-- Accumulate the value of a run of decimal digit characters. -/
def parseDigits : JStr → Nat → Nat
  | [], acc => acc
  | c :: cs, acc => parseDigits cs (acc * 10 + digitVal c)

/-- The digit-run stage of JS `parseInt`: value of the longest leading run
of decimal digits, `none` (JS `NaN`) when there is none. -/
def parseNatDigits (cs : JStr) : Option Nat :=
  let ds := cs.takeWhile Char.isDigit
  if ds = [] then none else some (parseDigits ds 0)

/-- The sign-then-digit-run stage of JS `parseInt`, applied after leading
whitespace is skipped. -/
def signAndDigits : JStr → Option Int
  | [] => none
  | c :: rest =>
    if c = '-' then (parseNatDigits rest).map (fun n => -(n : Int))
    else if c = '+' then (parseNatDigits rest).map (fun n => (n : Int))
    else (parseNatDigits (c :: rest)).map (fun n => (n : Int))

/-- JS `parseInt` as called on WAL fields: skip leading whitespace, accept
an optional sign, then the longest run of decimal digits; `none` models
`NaN`. (The `"0x"` hex autodetection of `parseInt` is not modelled: no
serialized field begins with it.) -/
def parseIntJS (cs : JStr) : Option Int :=
  signAndDigits (cs.dropWhile isJsWhitespace)

/-- An entry as reconstructed by `WriteAheadLog.recover`. `none` in the
string fields models the `undefined` a destructuring of too few split
fields produces; `none` in `score` models `NaN`; `none` in `ctimeMillis`
models an Invalid Date (`new Date(NaN)`). -/
structure RecoveredEntry where
  user_id : Option JStr
  game_id : Option JStr
  score : Option Int
  ctimeMillis : Option Int
deriving Repr, DecidableEq

/-- One line of `WriteAheadLog.recover`:
`const [user_id, game_id, score, ctime] = line.split(",")`, then
`parseInt(score)` and `new Date(parseInt(ctime))`. -/
def parseWalLine (line : JStr) : RecoveredEntry :=
  let fields := jsSplit ',' line
  { user_id := fields.get? 0
    game_id := fields.get? 1
    score := (fields.get? 2).bind parseIntJS
    ctimeMillis := (fields.get? 3).bind parseIntJS }

/-- `WriteAheadLog.recover` on a file with the given content:
`content.trim().split("\n")`, keeping the lines whose own `trim` is
non-empty, each parsed by `parseWalLine`, in file order. -/
def walRecover (content : JStr) : List RecoveredEntry :=
  (jsSplit '\n' (jsTrim content)).filterMap fun line =>
    if jsTrim line = [] then none else some (parseWalLine line)

/-- Outcome of an engine write as seen by the caller: a resolved promise,
or a rejected one (surfaced by the HTTP handler as a retryable 503). -/
inductive WriteResult
  | ok
  | retryableError
deriving Repr, DecidableEq

/-- State of a `WriteAheadLog` instance: the bytes of its file and whether
its `writeQueue` promise chain is currently rejected. A rejected chain
stays rejected: `append` extends the chain with `.then(cb)` and no
rejection handler is ever attached, so `cb` is skipped and the rejection
propagates to every later `append`'s returned promise. -/
structure WalState where
  content : JStr
  poisoned : Bool
deriving Repr, DecidableEq

/-- `WriteAheadLog.append` under fault injection: `fault` is whether the
underlying `fs.appendFile` would reject on this call. On a poisoned chain
the callback (and hence the write) is skipped and the caller sees the
rejection; a fresh fault writes nothing and poisons the chain; otherwise
the line is appended and the caller's promise resolves. -/
def walAppend (fault : Bool) (e : ScoreDetails) (w : WalState) : WriteResult × WalState :=
  if w.poisoned then (.retryableError, w)
  else if fault then (.retryableError, { w with poisoned := true })
  else (.ok, { w with content := w.content ++ walLine e })

/-- Run a sequence of `append` calls, collecting each caller's outcome. -/
def runAppends : List (Bool × ScoreDetails) → WalState → List WriteResult × WalState
  | [], w => ([], w)
  | (f, e) :: rest, w =>
    let (r, w1) := walAppend f e w
    let (rs, w2) := runAppends rest w1
    (r :: rs, w2)

/-- A `LeaderboardEngine` shard: its WAL and its skip list (level-0 chain). -/
structure EngineState where
  wal : WalState
  list : List Node
deriving Repr, DecidableEq

/-- The state the `LeaderboardEngine` constructor produces on a first-ever
start: empty WAL file, empty skip list. -/
def initEngine : EngineState :=
  ⟨⟨[], false⟩, []⟩

/-- `LeaderboardEngine.updateScore`: `await this.wal.append(scoreDetails)`
then `this.skipList.insertScore(scoreDetails)`. A rejected append throws
out of the `await`, so the insert is not reached and the rejection
propagates to the caller. -/
def updateScore (fault : Bool) (e : ScoreDetails) (s : EngineState) :
    WriteResult × EngineState :=
  match walAppend fault e s.wal with
  | (.ok, w) => (.ok, { wal := w, list := insertScore (toNode e) s.list })
  | (.retryableError, w) => (.retryableError, { s with wal := w })

/-- Run a sequence of `updateScore` calls (each tagged with whether its
append faults), returning the final shard state. -/
def runUpdates (ops : List (Bool × ScoreDetails)) (s : EngineState) : EngineState :=
  ops.foldl (fun s p => (updateScore p.1 p.2 s).2) s

/-- The shard produced for a `game_id` on first access after a process
restart, with `walContent` the bytes the previous process left in the
file. The `LeaderboardEngine` constructor builds an empty `SkipList` and a
`WriteAheadLog` handle; its `recover` method is declared but is invoked
nowhere (neither the constructor nor `getInstance` nor any caller), so the
WAL is never replayed and the index starts empty. -/
def freshEngine (walContent : JStr) : EngineState :=
  ⟨⟨walContent, false⟩, []⟩

/-- The strict ranking order on node keys: higher score first, ties by
lexicographically smaller `user_id` first. -/
def keyLt (a b : Node) : Prop :=
  a.score > b.score ∨ (a.score = b.score ∧ strLt a.user_id b.user_id = true)

/-- The row order the spec requires of `topK` output: strictly
non-increasing score, equal scores by ascending `user_id`. -/
def rowPrecedes (r1 r2 : Row) : Prop :=
  r1.score > r2.score ∨ (r1.score = r2.score ∧ strLt r1.user_id r2.user_id = true)

theorem strLt_irrefl (a : JStr) : strLt a a = false := by
  induction a with
  | nil => rfl
  | cons c cs ih => simp [strLt, ih]

theorem strLt_trans : ∀ {a b c : JStr},
    strLt a b = true → strLt b c = true → strLt a c = true
  | _, [], _, h1, _ => by simp [strLt] at h1
  | _, _ :: _, [], _, h2 => by simp [strLt] at h2
  | [], _ :: _, _ :: _, _, _ => by simp [strLt]
  | a0 :: as, b0 :: bs, c0 :: cs, h1, h2 => by
    simp only [strLt] at h1 h2 ⊢
    by_cases hab : a0 < b0
    · simp [hab] at h1
      by_cases hbc : b0 < c0
      · simp [lt_trans hab hbc]
      · by_cases hcb : c0 < b0
        · simp [hbc, hcb] at h2
        · have : b0 = c0 := le_antisymm (not_lt.mp hcb) (not_lt.mp hbc)
          subst this
          simp [hab]
    · by_cases hba : b0 < a0
      · simp [hab, hba] at h1
      · have : a0 = b0 := le_antisymm (not_lt.mp hba) (not_lt.mp hab)
        subst this
        by_cases hbc : a0 < c0
        · simp [hbc]
        · by_cases hcb : c0 < a0
          · simp [hbc, hcb] at h2
          · have : a0 = c0 := le_antisymm (not_lt.mp hcb) (not_lt.mp hbc)
            subst this
            simp [hab, hba] at h1 h2 ⊢
            exact strLt_trans h1 h2

theorem strLt_of_not_strLt_of_ne : ∀ {a b : JStr},
    strLt a b = false → a ≠ b → strLt b a = true
  | [], [], _, hne => absurd rfl hne
  | c :: cs, [], _, _ => by simp [strLt]
  | [], _ :: _, h, _ => by simp [strLt] at h
  | a0 :: as, b0 :: bs, h, hne => by
    simp only [strLt] at h ⊢
    by_cases hab : a0 < b0
    · simp [hab] at h
    · by_cases hba : b0 < a0
      · simp [hba]
      · have : a0 = b0 := le_antisymm (not_lt.mp hba) (not_lt.mp hab)
        subst this
        simp [hab] at h ⊢
        exact strLt_of_not_strLt_of_ne h (by intro hh; exact hne (by rw [hh]))

theorem keyLt_trans {a b c : Node} (h1 : keyLt a b) (h2 : keyLt b c) : keyLt a c := by
  rcases h1 with h1 | ⟨h1e, h1s⟩ <;> rcases h2 with h2 | ⟨h2e, h2s⟩
  · exact Or.inl (lt_trans h2 h1)
  · exact Or.inl (h2e ▸ h1)
  · exact Or.inl (h1e ▸ h2)
  · exact Or.inr ⟨h1e.trans h2e, strLt_trans h1s h2s⟩

/-- The walk condition holds of node `n` exactly when `n`'s key strictly
precedes the probe key. -/
theorem nodeLtB_iff {n e : Node} :
    nodeLtB n e.user_id e.score = true ↔ keyLt n e := by
  simp [nodeLtB, keyLt, decide_eq_true_eq]

/-- `keyLt` only looks at the score and the `user_id`. -/
theorem keyLt_congr {a a' b : Node}
    (hu : a'.user_id = a.user_id) (hs : a'.score = a.score) :
    keyLt a b → keyLt a' b := by
  simp [keyLt, hu, hs, imp_self]

/-- `keyLt` only looks at the score and the `user_id` (right argument). -/
theorem keyLt_congr_right {a b b' : Node}
    (hu : b'.user_id = b.user_id) (hs : b'.score = b.score) :
    keyLt a b → keyLt a b' := by
  simp [keyLt, hu, hs, imp_self]

/-- Every node of `insertScore e l` is a node of `l`, or carries `e`'s key
(the fresh node, or an in-place update of the node holding `e.user_id`). -/
theorem mem_insertScore {x e : Node} : ∀ {l : List Node},
    x ∈ insertScore e l → x ∈ l ∨ (x.user_id = e.user_id ∧ x.score = e.score)
  | [], h => by
    simp [insertScore] at h
    subst h
    exact Or.inr ⟨rfl, rfl⟩
  | n :: rest, h => by
    simp only [insertScore] at h
    by_cases h1 : nodeLtB n e.user_id e.score
    · rw [if_pos h1] at h
      rcases List.mem_cons.mp h with h | h
      · exact Or.inl (h ▸ List.mem_cons_self _ _)
      · rcases mem_insertScore h with h | h
        · exact Or.inl (List.mem_cons_of_mem _ h)
        · exact Or.inr h
    · rw [if_neg h1] at h
      by_cases h2 : n.user_id = e.user_id
      · rw [if_pos h2] at h
        rcases List.mem_cons.mp h with h | h
        · subst h
          exact Or.inr ⟨h2, rfl⟩
        · exact Or.inl (List.mem_cons_of_mem _ h)
      · rw [if_neg h2] at h
        rcases List.mem_cons.mp h with h | h
        · exact Or.inr ⟨by rw [h], by rw [h]⟩
        · exact Or.inl h

/-- `insertScore` preserves strict sortedness of the level-0 chain. -/
theorem pairwise_insertScore {e : Node} : ∀ {l : List Node},
    List.Pairwise keyLt l → List.Pairwise keyLt (insertScore e l)
  | [], _ => List.pairwise_singleton _ _
  | n :: rest, h => by
    rcases List.pairwise_cons.mp h with ⟨hn, hrest⟩
    simp only [insertScore]
    by_cases h1 : nodeLtB n e.user_id e.score
    · rw [if_pos h1]
      refine List.pairwise_cons.mpr ⟨?_, pairwise_insertScore hrest⟩
      intro x hx
      rcases mem_insertScore hx with hx | ⟨hxu, hxs⟩
      · exact hn x hx
      · exact keyLt_congr_right hxu hxs (nodeLtB_iff.mp h1)
    · rw [if_neg h1]
      by_cases h2 : n.user_id = e.user_id
      · rw [if_pos h2]
        refine List.pairwise_cons.mpr ⟨?_, hrest⟩
        intro x hx
        have hkey : ¬ keyLt n e := fun hk => h1 (nodeLtB_iff.mpr hk)
        have hscore : n.score ≤ e.score := by
          by_contra hgt
          exact hkey (Or.inl (lt_of_not_le hgt))
        have hx' := hn x hx
        rcases hx' with hx' | ⟨hxe, hxs⟩
        · rcases lt_or_eq_of_le hscore with hlt | heq
          · exact Or.inl (lt_of_lt_of_le hx' (le_of_lt hlt))
          · exact Or.inl (heq ▸ hx')
        · rcases lt_or_eq_of_le hscore with hlt | heq
          · exact Or.inl (by simp only [gt_iff_lt]; omega)
          · exact Or.inr ⟨by simp [← heq, hxe], by simpa using hxs⟩
      · rw [if_neg h2]
        have hkey : ¬ keyLt n e := fun hk => h1 (nodeLtB_iff.mpr hk)
        have hen : keyLt e n := by
          have hscore : n.score ≤ e.score := by
            by_contra hgt
            exact hkey (Or.inl (lt_of_not_le hgt))
          rcases lt_or_eq_of_le hscore with hlt | heq
          · exact Or.inl hlt
          · refine Or.inr ⟨heq.symm, ?_⟩
            have hnot : strLt n.user_id e.user_id = false := by
              by_contra hh
              exact hkey (Or.inr ⟨heq, by simpa using hh⟩)
            exact strLt_of_not_strLt_of_ne hnot h2
        refine List.pairwise_cons.mpr ⟨?_, h⟩
        intro x hx
        rcases List.mem_cons.mp hx with hx | hx
        · exact hx ▸ hen
        · exact keyLt_trans hen (hn x hx)

/-- Every state reachable by upserts from the empty list is strictly
sorted in ranking order. -/
theorem pairwise_applyOps (ops : List Node) :
    List.Pairwise keyLt (applyOps ops) := by
  suffices h : ∀ l, List.Pairwise keyLt l → List.Pairwise keyLt
      (ops.foldl (fun l e => insertScore e l) l) by
    exact h [] (List.Pairwise.nil)
  induction ops with
  | nil => exact fun l hl => hl
  | cons e rest ih => exact fun l hl => ih _ (pairwise_insertScore hl)

/-- Every row `getTopK` yields copies the `user_id` and `score` of some
chain node. -/
theorem mem_getTopKAux {ro : Row} {k : Int} : ∀ {l : List Node} {rank len : Nat},
    ro ∈ getTopKAux k l rank len → ∃ m ∈ l, ro.user_id = m.user_id ∧ ro.score = m.score
  | [], _, _, h => by simp [getTopKAux] at h
  | n :: rest, rank, len, h => by
    simp only [getTopKAux] at h
    by_cases hk : (len : Int) < k
    · rw [if_pos hk] at h
      rcases List.mem_cons.mp h with h | h
      · exact ⟨n, List.mem_cons_self _ _, by rw [h], by rw [h]⟩
      · rcases mem_getTopKAux h with ⟨m, hm, hu, hs⟩
        exact ⟨m, List.mem_cons_of_mem _ hm, hu, hs⟩
    · rw [if_neg hk] at h
      simp at h

/-- A sorted chain yields `getTopK` rows in the required order. -/
theorem pairwise_getTopKAux {k : Int} : ∀ {l : List Node} {rank len : Nat},
    List.Pairwise keyLt l → List.Pairwise rowPrecedes (getTopKAux k l rank len)
  | [], _, _, _ => List.Pairwise.nil
  | n :: rest, rank, len, h => by
    rcases List.pairwise_cons.mp h with ⟨hn, hrest⟩
    simp only [getTopKAux]
    by_cases hk : (len : Int) < k
    · rw [if_pos hk]
      refine List.pairwise_cons.mpr ⟨?_, pairwise_getTopKAux hrest⟩
      intro ro hro
      rcases mem_getTopKAux hro with ⟨m, hm, hu, hs⟩
      have := hn m hm
      rcases this with h' | ⟨h'e, h's⟩
      · exact Or.inl (by simp only [hs]; exact h')
      · exact Or.inr ⟨by rw [hs, h'e], by rw [hu]; exact h's⟩
    · rw [if_neg hk]
      exact List.Pairwise.nil

/-- On a poisoned (rejected) promise chain, every later `append` leaves
the WAL state untouched and reports the rejection to its caller. -/
theorem runAppends_poisoned {w : WalState} (h : w.poisoned = true) :
    ∀ ops : List (Bool × ScoreDetails),
      (runAppends ops w).2 = w ∧ ∀ r ∈ (runAppends ops w).1, r = .retryableError
  | [] => ⟨rfl, by simp [runAppends]⟩
  | (f, e) :: rest => by
    have hw : walAppend f e w = (.retryableError, w) := by
      unfold walAppend
      rw [if_pos h]
    rcases runAppends_poisoned h rest with ⟨h1, h2⟩
    simp only [runAppends, hw]
    refine ⟨h1, ?_⟩
    intro r hr
    rcases List.mem_cons.mp hr with hr | hr
    · exact hr
    · exact h2 r hr

/-- A rejected `append` leaves the chain rejected. -/
theorem walAppend_fail_poisons {fault : Bool} {e : ScoreDetails} {w : WalState}
    (h : (walAppend fault e w).1 = .retryableError) :
    (walAppend fault e w).2.poisoned = true := by
  unfold walAppend at h ⊢
  by_cases hp : w.poisoned
  · simp [hp]
  · rw [if_neg hp] at h ⊢
    by_cases hf : fault
    · simp [hf]
    · simp [hf] at h

theorem digitChar_isDigit {d : Nat} (h : d < 10) : (Nat.digitChar d).isDigit = true := by
  interval_cases d <;> decide

theorem digitVal_digitChar {d : Nat} (h : d < 10) : digitVal (Nat.digitChar d) = d := by
  interval_cases d <;> decide

theorem isDigit_not_ws {c : Char} (h : c.isDigit = true) : isJsWhitespace c = false := by
  have h1 : c ≠ ' ' := by intro hc; subst hc; exact absurd h (by decide)
  have h2 : c ≠ '\t' := by intro hc; subst hc; exact absurd h (by decide)
  have h3 : c ≠ '\n' := by intro hc; subst hc; exact absurd h (by decide)
  have h4 : c ≠ '\r' := by intro hc; subst hc; exact absurd h (by decide)
  have h5 : c ≠ '\x0b' := by intro hc; subst hc; exact absurd h (by decide)
  have h6 : c ≠ '\x0c' := by intro hc; subst hc; exact absurd h (by decide)
  simp [isJsWhitespace, h1, h2, h3, h4, h5, h6]

theorem isDigit_ne_comma {c : Char} (h : c.isDigit = true) : c ≠ ',' := by
  intro hc
  subst hc
  exact absurd h (by decide)

theorem isDigit_ne_newline {c : Char} (h : c.isDigit = true) : c ≠ '\n' := by
  intro hc
  subst hc
  exact absurd h (by decide)

theorem isDigit_ne_minus {c : Char} (h : c.isDigit = true) : c ≠ '-' := by
  intro hc
  subst hc
  exact absurd h (by decide)

theorem isDigit_ne_plus {c : Char} (h : c.isDigit = true) : c ≠ '+' := by
  intro hc
  subst hc
  exact absurd h (by decide)

theorem natDigitsAux_isDigit : ∀ {fuel n : Nat},
    ∀ c ∈ natDigitsAux fuel n, c.isDigit = true
  | 0, n => by intro c hc; simp [natDigitsAux] at hc
  | fuel + 1, n => by
    simp only [natDigitsAux]
    by_cases h10 : n < 10
    · rw [if_pos h10]
      intro c hc
      rcases List.mem_singleton.mp hc with rfl
      exact digitChar_isDigit h10
    · rw [if_neg h10]
      intro c hc
      rcases List.mem_append.mp hc with hc | hc
      · exact natDigitsAux_isDigit c hc
      · rcases List.mem_singleton.mp hc with rfl
        exact digitChar_isDigit (Nat.mod_lt _ (by omega))

theorem natDigitsAux_ne_nil {fuel n : Nat} : natDigitsAux (fuel + 1) n ≠ [] := by
  simp only [natDigitsAux]
  by_cases h10 : n < 10
  · rw [if_pos h10]
    simp
  · rw [if_neg h10]
    simp

theorem parseDigits_append (l1 l2 : JStr) (acc : Nat) :
    parseDigits (l1 ++ l2) acc = parseDigits l2 (parseDigits l1 acc) := by
  induction l1 generalizing acc with
  | nil => rfl
  | cons c cs ih =>
    simp only [List.cons_append, parseDigits]
    exact ih _

theorem natDigitsAux_val : ∀ {fuel n : Nat}, n < 10 ^ fuel →
    parseDigits (natDigitsAux fuel n) 0 = n
  | 0, n, h => by
    simp only [natDigitsAux, parseDigits]
    simp only [pow_zero] at h
    omega
  | fuel + 1, n, h => by
    simp only [natDigitsAux]
    by_cases h10 : n < 10
    · rw [if_pos h10]
      simp [parseDigits, digitVal_digitChar h10]
    · rw [if_neg h10]
      have hlt : n / 10 < 10 ^ fuel := by
        rw [Nat.div_lt_iff_lt_mul (by omega)]
        calc n < 10 ^ (fuel + 1) := h
          _ = 10 ^ fuel * 10 := by ring
      rw [parseDigits_append, natDigitsAux_val hlt]
      simp only [parseDigits, digitVal_digitChar (Nat.mod_lt _ (by omega : (0:Nat) < 10))]
      omega

theorem nat_lt_pow_succ (n : Nat) : n < 10 ^ (n + 1) :=
  lt_of_lt_of_le (Nat.lt_pow_self (by norm_num) n)
    (Nat.pow_le_pow_right (by norm_num) (Nat.le_succ n))

theorem natDigits_isDigit {n : Nat} : ∀ c ∈ natDigits n, c.isDigit = true :=
  natDigitsAux_isDigit

theorem natDigits_ne_nil (n : Nat) : natDigits n ≠ [] :=
  natDigitsAux_ne_nil

theorem natDigits_val (n : Nat) : parseDigits (natDigits n) 0 = n :=
  natDigitsAux_val (nat_lt_pow_succ n)

theorem takeWhile_isDigit_all {l : JStr} (h : ∀ c ∈ l, c.isDigit = true) :
    l.takeWhile Char.isDigit = l := by
  induction l with
  | nil => rfl
  | cons c cs ih =>
    have hc := h c (List.mem_cons_self _ _)
    have ihh := ih (fun x hx => h x (List.mem_cons_of_mem _ hx))
    simp [List.takeWhile_cons, hc, ihh]

theorem dropWhile_ws_all_digits {l : JStr} (h : ∀ c ∈ l, c.isDigit = true) :
    l.dropWhile isJsWhitespace = l := by
  cases l with
  | nil => rfl
  | cons c cs =>
    have hc := isDigit_not_ws (h c (List.mem_cons_self _ _))
    simp [List.dropWhile_cons, hc]

/-- The digit-run stage of `parseIntJS` reads back exactly the digits JS
printed for `n`. -/
theorem parseNatDigits_natDigits (n : Nat) : parseNatDigits (natDigits n) = some n := by
  unfold parseNatDigits
  rw [takeWhile_isDigit_all natDigits_isDigit]
  rw [if_neg (natDigits_ne_nil n)]
  rw [natDigits_val]

/-- `parseInt` of a WAL numeric field — a single leading space followed by
the JS decimal rendering — recovers the integer exactly. -/
theorem parseIntJS_space_intRepr (s : Int) : parseIntJS (' ' :: intRepr s) = some s := by
  have hdw : (' ' :: intRepr s).dropWhile isJsWhitespace = intRepr s := by
    simp only [List.dropWhile_cons]
    rw [if_pos (by decide)]
    unfold intRepr
    by_cases hs : s < 0
    · rw [if_pos hs]
      simp only [List.dropWhile_cons]
      rw [if_neg (by decide)]
    · rw [if_neg hs]
      exact dropWhile_ws_all_digits natDigits_isDigit
  unfold parseIntJS
  rw [hdw]
  unfold intRepr
  by_cases hs : s < 0
  · rw [if_pos hs]
    simp only [signAndDigits, if_pos rfl]
    rw [parseNatDigits_natDigits]
    show some (-(s.natAbs : Int)) = some s
    congr 1
    omega
  · rw [if_neg hs]
    rcases hne : natDigits s.natAbs with _ | ⟨c, cs⟩
    · exact absurd hne (natDigits_ne_nil _)
    · have hc : c.isDigit = true := natDigits_isDigit c (hne ▸ List.mem_cons_self _ _)
      simp only [signAndDigits]
      rw [if_neg (isDigit_ne_minus hc), if_neg (isDigit_ne_plus hc), ← hne,
        parseNatDigits_natDigits]
      show some ((s.natAbs : Int)) = some s
      congr 1
      omega

theorem intRepr_isDigit_or_minus {s : Int} :
    ∀ c ∈ intRepr s, c.isDigit = true ∨ c = '-' := by
  unfold intRepr
  by_cases hs : s < 0
  · rw [if_pos hs]
    intro c hc
    rcases List.mem_cons.mp hc with rfl | hc
    · exact Or.inr rfl
    · exact Or.inl (natDigits_isDigit c hc)
  · rw [if_neg hs]
    intro c hc
    exact Or.inl (natDigits_isDigit c hc)

theorem comma_not_mem_intRepr (s : Int) : ',' ∉ intRepr s := by
  intro h
  rcases intRepr_isDigit_or_minus ',' h with h | h
  · exact absurd h (by decide)
  · exact absurd h (by decide)

theorem newline_not_mem_intRepr (s : Int) : '\n' ∉ intRepr s := by
  intro h
  rcases intRepr_isDigit_or_minus '\n' h with h | h
  · exact absurd h (by decide)
  · exact absurd h (by decide)

theorem jsSplit_not_mem {sep : Char} : ∀ {l : JStr}, sep ∉ l → jsSplit sep l = [l]
  | [], _ => rfl
  | c :: cs, h => by
    have hc : c ≠ sep := fun hh => h (hh ▸ List.mem_cons_self _ _)
    have hcs : sep ∉ cs := fun hh => h (List.mem_cons_of_mem _ hh)
    simp only [jsSplit, if_neg hc, jsSplit_not_mem hcs]

theorem jsSplit_append {sep : Char} (rest : JStr) : ∀ {u : JStr}, sep ∉ u →
    jsSplit sep (u ++ sep :: rest) = u :: jsSplit sep rest
  | [], _ => by simp [jsSplit]
  | c :: cs, h => by
    have hc : c ≠ sep := fun hh => h (hh ▸ List.mem_cons_self _ _)
    have hcs : sep ∉ cs := fun hh => h (List.mem_cons_of_mem _ hh)
    have ih := jsSplit_append rest hcs
    simp only [List.cons_append, jsSplit, if_neg hc, List.append_eq]
    rw [ih]

theorem dropWhile_ws_append_comma {u : JStr} (z : JStr)
    (hu : u.dropWhile isJsWhitespace = u) :
    (u ++ ',' :: z).dropWhile isJsWhitespace = u ++ ',' :: z := by
  rw [List.dropWhile_append, hu]
  cases u with
  | nil =>
    simp only [List.isEmpty_nil, if_true, List.nil_append]
    rw [List.dropWhile_cons, if_neg (by decide)]
  | cons c cs => simp

theorem dropWhile_ws_append_of_ne_nil {u : JStr} (z : JStr)
    (hu : u.dropWhile isJsWhitespace = u) (hne : u ≠ []) :
    (u ++ z).dropWhile isJsWhitespace = u ++ z := by
  rw [List.dropWhile_append, hu]
  cases u with
  | nil => exact absurd rfl hne
  | cons c cs => simp

/-- `trim` is the identity on a string already trimmed on both ends. -/
theorem jsTrim_fixpoint {T : JStr}
    (hleft : T.dropWhile isJsWhitespace = T)
    (hright : T.reverse.dropWhile isJsWhitespace = T.reverse) :
    jsTrim T = T := by
  unfold jsTrim
  rw [hleft, hright, List.reverse_reverse]

/-- `trim` of an already-trimmed string followed by a final newline strips
exactly the newline. -/
theorem jsTrim_concat_nl {T : JStr} (hne : T ≠ [])
    (hleft : T.dropWhile isJsWhitespace = T)
    (hright : T.reverse.dropWhile isJsWhitespace = T.reverse) :
    jsTrim (T ++ ['\n']) = T := by
  unfold jsTrim
  rw [dropWhile_ws_append_of_ne_nil _ hleft hne]
  rw [List.reverse_append]
  show ((('\n' :: T.reverse).dropWhile isJsWhitespace).reverse : JStr) = T
  rw [List.dropWhile_cons, if_pos (by decide), hright, List.reverse_reverse]

theorem comma_not_mem_space_cons {l : JStr} (h : ',' ∉ l) : ',' ∉ (' ' :: l) := by
  intro hh
  rcases List.mem_cons.mp hh with h1 | h1
  · exact absurd h1 (by decide)
  · exact h h1

theorem comma_not_mem_append_nl {l : JStr} (h : ',' ∉ l) : ',' ∉ (l ++ ['\n']) := by
  intro hh
  rcases List.mem_append.mp hh with h1 | h1
  · exact h h1
  · exact absurd (List.mem_singleton.mp h1) (by decide)

theorem append_cons_ne_nil {u z : JStr} {c : Char} : u ++ c :: z ≠ [] := by
  intro h
  rcases List.append_eq_nil.mp h with ⟨_, h2⟩
  exact List.cons_ne_nil _ _ h2

/-- C1: the claim fails on the code. The upsert's duplicate check only
inspects the node sitting at the new key's position; after upserting
`("u", 10)` and then `("u", 5)`, the old higher-score node is walked past
and a second node for `"u"` is spliced in, so the level-0 chain holds two
nodes for the same `user_id`. -/
theorem C1_upsert_leaves_two_nodes_for_same_user :
    applyOps [⟨"u".data, "g".data, 10⟩, ⟨"u".data, "g".data, 5⟩] =
      [⟨"u".data, "g".data, 10⟩, ⟨"u".data, "g".data, 5⟩] ∧
    (applyOps [⟨"u".data, "g".data, 10⟩, ⟨"u".data, "g".data, 5⟩]).countP
        (fun n => n.user_id == "u".data) = 2 := by
  decide

/-- C2: the claim fails on the code. After the completed writes
`("u", 10)` then `("u", 5)`, `getScore "u"` walks level 0 and returns the
first matching node's score — the stale 10 of the earlier write — not the
5 of the last successful write. -/
theorem C2_getScore_returns_stale_score :
    getScore "u".data (runUpdates
        [(false, ⟨"u".data, "g".data, 10, "T1".data⟩),
         (false, ⟨"u".data, "g".data, 5, "T2".data⟩)] initEngine).list = 10 ∧
    getScore "u".data (runUpdates
        [(false, ⟨"u".data, "g".data, 10, "T1".data⟩),
         (false, ⟨"u".data, "g".data, 5, "T2".data⟩)] initEngine).list ≠ 5 := by
  decide

/-- C3: the claim fails on the code. After one acknowledged write the WAL
file holds the record, but the engine constructed for the same `game_id`
after a restart starts with an empty skip list — `LeaderboardEngine.recover`
is declared and never invoked — so `topK`, `scoreOf` and `rankOf` all
differ from their pre-crash values. -/
theorem C3_restart_loses_acknowledged_writes :
    (runUpdates [(false, ⟨"u1".data, "g".data, 5, "T".data⟩)] initEngine).wal.content =
      walLine ⟨"u1".data, "g".data, 5, "T".data⟩ ∧
    getTopK 1 (runUpdates [(false, ⟨"u1".data, "g".data, 5, "T".data⟩)] initEngine).list ≠
      getTopK 1 (freshEngine (runUpdates [(false, ⟨"u1".data, "g".data, 5, "T".data⟩)]
        initEngine).wal.content).list ∧
    getScore "u1".data (runUpdates [(false, ⟨"u1".data, "g".data, 5, "T".data⟩)] initEngine).list ≠
      getScore "u1".data (freshEngine (runUpdates [(false, ⟨"u1".data, "g".data, 5, "T".data⟩)]
        initEngine).wal.content).list ∧
    getRank "u1".data (runUpdates [(false, ⟨"u1".data, "g".data, 5, "T".data⟩)] initEngine).list ≠
      getRank "u1".data (freshEngine (runUpdates [(false, ⟨"u1".data, "g".data, 5, "T".data⟩)]
        initEngine).wal.content).list := by
  decide

/-- C6: for every shard state reachable by upserts and every `k`,
`topK(k)` lists rows in strictly decreasing key order — score strictly
non-increasing, equal scores by ascending `user_id` — and in particular
upserting `("b", 5)` then `("a", 5)` gives `topK(2) = [(a,5,1),(b,5,2)]`. -/
theorem C6_topK_ordering (ops : List Node) (k : Int) :
    List.Pairwise rowPrecedes (getTopK k (applyOps ops)) ∧
    getTopK 2 (applyOps [⟨"b".data, "g".data, 5⟩, ⟨"a".data, "g".data, 5⟩]) =
      [⟨"a".data, 5, 1, "g".data⟩, ⟨"b".data, 5, 2, "g".data⟩] :=
  ⟨pairwise_getTopKAux (pairwise_applyOps ops), by decide⟩

/-- C7: the claim fails on the code. After upserting `("u", 10)` then
`("u", 5)`, the full `topK` output lists user `"u"` at both rank 1 and
rank 2 (the duplicate-node defect), and `rankOf("u")` returns 1, which
differs from the rank 2 carried by the second of `"u"`'s rows. -/
theorem C7_rankOf_disagrees_with_row_rank :
    getTopK 2 (applyOps [⟨"u".data, "g".data, 10⟩, ⟨"u".data, "g".data, 5⟩]) =
      [⟨"u".data, 10, 1, "g".data⟩, ⟨"u".data, 5, 2, "g".data⟩] ∧
    getRank "u".data (applyOps [⟨"u".data, "g".data, 10⟩, ⟨"u".data, "g".data, 5⟩]) = 1 := by
  decide

/-- C8: when the WAL append fails, `updateScore` propagates the retryable
failure to its caller and the in-memory skip list is left unchanged: the
upsert runs only after the awaited append has succeeded. -/
theorem C8_wal_failure_leaves_index_untouched
    (fault : Bool) (e : ScoreDetails) (s : EngineState)
    (h : (walAppend fault e s.wal).1 = .retryableError) :
    (updateScore fault e s).1 = .retryableError ∧
    (updateScore fault e s).2.list = s.list := by
  unfold updateScore
  rcases hw : walAppend fault e s.wal with ⟨r, w⟩
  rw [hw] at h
  simp only at h
  subst h
  simp

/-- Witness for C8 at a concrete faulting append on the initial shard. -/
theorem C8_wal_failure_witness :
    (walAppend true ⟨"u".data, "g".data, 5, "T".data⟩ initEngine.wal).1 = .retryableError ∧
    ((updateScore true ⟨"u".data, "g".data, 5, "T".data⟩ initEngine).1 = .retryableError ∧
      (updateScore true ⟨"u".data, "g".data, 5, "T".data⟩ initEngine).2.list = initEngine.list) :=
  ⟨by decide, C8_wal_failure_leaves_index_untouched true _ initEngine (by decide)⟩

/-- C9: the claim fails on the code. `topK(-1)` on a non-empty shard is
not rejected: `getTopK` has no error path at all and simply returns the
empty result list, because the loop guard `result.length < k` is false
immediately. -/
theorem C9_negative_k_returns_result_list :
    getTopK (-1) (applyOps [⟨"a".data, "g".data, 1⟩]) = [] := by
  decide

/-- C9 amended: `topK(0)` returns the empty list, and `topK(k)` for
`k < 0` also returns the empty list rather than being rejected. -/
theorem C9_amended_nonpositive_k_empty (l : List Node) (k : Int) (hk : k ≤ 0) :
    getTopK k l = [] := by
  cases l with
  | nil => rfl
  | cons n rest =>
    simp only [getTopK, getTopKAux, Nat.cast_zero]
    rw [if_neg (by omega)]

/-- Witness for the amended C9 at `k = 0` on a concrete shard. -/
theorem C9_amended_witness :
    (0 : Int) ≤ 0 ∧ getTopK 0 (applyOps [⟨"a".data, "g".data, 1⟩]) = [] :=
  ⟨by decide, C9_amended_nonpositive_k_empty _ 0 (by decide)⟩

/-- C10: once one `append` on a `WriteAheadLog` instance fails, the
`writeQueue` promise chain is rejected and never repaired, so every
subsequent `append` on that instance reports failure to its caller and
writes no bytes to the file. -/
theorem C10_failed_append_poisons_all_later_appends
    (w : WalState) (e : ScoreDetails) (fault : Bool)
    (h : (walAppend fault e w).1 = .retryableError)
    (ops : List (Bool × ScoreDetails)) :
    (runAppends ops (walAppend fault e w).2).2.content = (walAppend fault e w).2.content ∧
    ∀ r ∈ (runAppends ops (walAppend fault e w).2).1, r = .retryableError := by
  rcases runAppends_poisoned (walAppend_fail_poisons h) ops with ⟨h1, h2⟩
  exact ⟨by rw [h1], h2⟩

/-- Witness for C10: a faulting first append on a fresh WAL followed by
two fault-free appends, all of which fail and write nothing. -/
theorem C10_poisoned_witness :
    (walAppend true ⟨"u1".data, "g".data, 1, "T1".data⟩ initEngine.wal).1 = .retryableError ∧
    ((runAppends [(false, ⟨"u2".data, "g".data, 2, "T2".data⟩),
        (false, ⟨"u3".data, "g".data, 3, "T3".data⟩)]
        (walAppend true ⟨"u1".data, "g".data, 1, "T1".data⟩ initEngine.wal).2).2.content =
      (walAppend true ⟨"u1".data, "g".data, 1, "T1".data⟩ initEngine.wal).2.content ∧
    ∀ r ∈ (runAppends [(false, ⟨"u2".data, "g".data, 2, "T2".data⟩),
        (false, ⟨"u3".data, "g".data, 3, "T3".data⟩)]
        (walAppend true ⟨"u1".data, "g".data, 1, "T1".data⟩ initEngine.wal).2).1,
      r = .retryableError) :=
  ⟨by decide, C10_failed_append_poisons_all_later_appends _ _ true (by decide) _⟩

/-- C4: the claim fails on the code. The record `WAL.append` writes for
user `"u"`, game `"g"`, score 5 and rendered ctime `"T"` is
`"u, g, 5, T\n"`: it contains no TAB at all, the delimiter is comma-space
(and a comma is not disallowed in `user_id`), `game_id` is included as the
second field, and `ctime` is the `Date`'s string rendering rather than
integer epoch milliseconds. -/
theorem C4_wal_line_not_tab_delimited :
    walLine ⟨"u".data, "g".data, 5, "T".data⟩ = "u, g, 5, T\n".data ∧
    '\t' ∉ walLine ⟨"u".data, "g".data, 5, "T".data⟩ := by
  decide

/-- C4 amended: every record `WAL.append` writes is a single
newline-terminated line, but its fields are separated by comma-space (a
delimiter not disallowed in `user_id`), `game_id` is included as the
second field, and `ctime` is the `Date`'s rendered string: for comma-free
fields, splitting the line at commas yields exactly `user_id`, `game_id`,
the base-10 score and the rendered ctime. -/
theorem C4_amended_comma_space_line (e : ScoreDetails)
    (hu : ',' ∉ e.user_id) (hg : ',' ∉ e.game_id) (hc : ',' ∉ e.ctimeStr) :
    jsSplit ',' (walLine e) =
      [e.user_id, ' ' :: e.game_id, ' ' :: intRepr e.score,
        ' ' :: (e.ctimeStr ++ ['\n'])] ∧
    (walLine e).getLast? = some '\n' := by
  constructor
  · have hshape : walLine e =
        e.user_id ++ ',' :: ((' ' :: e.game_id) ++ ',' :: ((' ' :: intRepr e.score)
          ++ ',' :: (' ' :: (e.ctimeStr ++ ['\n'])))) := by
      simp [walLine, List.append_assoc]
    rw [hshape, jsSplit_append _ hu,
      jsSplit_append _ (comma_not_mem_space_cons hg),
      jsSplit_append _ (comma_not_mem_space_cons (comma_not_mem_intRepr _)),
      jsSplit_not_mem (comma_not_mem_space_cons (comma_not_mem_append_nl hc))]
  · have hshape : walLine e =
        (e.user_id ++ (',' :: ' ' :: e.game_id) ++ (',' :: ' ' :: intRepr e.score)
          ++ (',' :: ' ' :: e.ctimeStr)) ++ ['\n'] := by
      simp [walLine, List.append_assoc]
    rw [hshape, List.getLast?_concat]

/-- Witness for the amended C4 at a concrete entry. -/
theorem C4_amended_witness :
    (',' ∉ "u1".data ∧ ',' ∉ "g1".data ∧ ',' ∉ "T1".data) ∧
    (jsSplit ',' (walLine ⟨"u1".data, "g1".data, 7, "T1".data⟩) =
      ["u1".data, ' ' :: "g1".data, ' ' :: intRepr 7, ' ' :: ("T1".data ++ ['\n'])] ∧
    (walLine ⟨"u1".data, "g1".data, 7, "T1".data⟩).getLast? = some '\n') :=
  ⟨by decide, C4_amended_comma_space_line _ (by decide) (by decide) (by decide)⟩

/-- C5: the claim fails on the code. For the entry written by `append`
with user `"u1"`, score 42 and a `Date` whose rendering is
`"Sun Oct 12 2025 10:00:00 GMT+0000 (Coordinated Universal Time)"`,
`recover` yields the same `user_id` and score but its `ctime` is
`new Date(parseInt(" Sun Oct ..."))`, i.e. an Invalid Date (`NaN`),
not a timestamp equal to the original within millisecond precision. -/
theorem C5_ctime_not_recovered :
    walRecover (walLine ⟨"u1".data, "g".data, 42,
        "Sun Oct 12 2025 10:00:00 GMT+0000 (Coordinated Universal Time)".data⟩) =
      [⟨some "u1".data, some " g".data, some 42, none⟩] := by
  decide

/-- C5 amended: append-then-replay is the identity on `(user_id, score)`
provided `user_id`, `game_id` contain no comma and no newline, `user_id`
does not begin with whitespace, and the rendered ctime is non-empty,
newline-free and does not end in whitespace (all true of JS `Date`
renderings); the `ctime` itself is not recovered (it parses to `NaN`). -/
theorem C5_amended_roundtrip (e : ScoreDetails)
    (huc : ',' ∉ e.user_id) (hun : '\n' ∉ e.user_id)
    (huw : e.user_id.dropWhile isJsWhitespace = e.user_id)
    (hgc : ',' ∉ e.game_id) (hgn : '\n' ∉ e.game_id)
    (hcn : '\n' ∉ e.ctimeStr) (hcne : e.ctimeStr ≠ [])
    (hcw : e.ctimeStr.reverse.dropWhile isJsWhitespace = e.ctimeStr.reverse) :
    (walRecover (walLine e)).map (fun r => (r.user_id, r.score)) =
      [(some e.user_id, some e.score)] := by
  set T : JStr := e.user_id ++ ',' :: ((' ' :: e.game_id) ++ ',' ::
    ((' ' :: intRepr e.score) ++ ',' :: (' ' :: e.ctimeStr))) with hT
  have hW : walLine e = T ++ ['\n'] := by
    simp [walLine, hT, List.append_assoc]
  have hTne : T ≠ [] := append_cons_ne_nil
  have hTleft : T.dropWhile isJsWhitespace = T := dropWhile_ws_append_comma _ huw
  have hTright : T.reverse.dropWhile isJsWhitespace = T.reverse := by
    have hrsh : T.reverse = e.ctimeStr.reverse ++ (' ' :: ',' ::
        ((intRepr e.score).reverse ++ (' ' :: ',' ::
          (e.game_id.reverse ++ (' ' :: ',' :: e.user_id.reverse))))) := by
      simp [hT, List.reverse_append, List.append_assoc]
    rw [hrsh]
    exact dropWhile_ws_append_of_ne_nil _ hcw
      (fun hh => hcne (List.reverse_eq_nil_iff.mp hh))
  have hTrim : jsTrim (walLine e) = T := by
    rw [hW]
    exact jsTrim_concat_nl hTne hTleft hTright
  have hNoNl : '\n' ∉ T := by
    intro hh
    simp only [hT, List.mem_append, List.mem_cons] at hh
    casesm* _ ∨ _ <;>
      first
        | exact hun (by assumption)
        | exact hgn (by assumption)
        | exact hcn (by assumption)
        | exact newline_not_mem_intRepr e.score (by assumption)
        | exact absurd (by assumption : '\n' = ',') (by decide)
        | exact absurd (by assumption : '\n' = ' ') (by decide)
  have hsplit : jsSplit ',' T =
      e.user_id :: (' ' :: e.game_id) :: (' ' :: intRepr e.score) ::
        jsSplit ',' (' ' :: e.ctimeStr) := by
    rw [hT, jsSplit_append _ huc, jsSplit_append _ (comma_not_mem_space_cons hgc),
      jsSplit_append _ (comma_not_mem_space_cons (comma_not_mem_intRepr _))]
  unfold walRecover
  rw [hTrim, jsSplit_not_mem hNoNl]
  rw [List.filterMap_cons, List.filterMap_nil]
  rw [if_neg (by rw [jsTrim_fixpoint hTleft hTright]; exact hTne)]
  simp only [List.map_cons, List.map_nil]
  unfold parseWalLine
  rw [hsplit]
  simp only [List.get?_cons_zero, List.get?_cons_succ, Option.bind_some,
    Option.some_bind]
  rw [parseIntJS_space_intRepr]

/-- Witness for the amended C5 at a concrete entry with a realistic `Date`
rendering. -/
theorem C5_amended_witness :
    (',' ∉ "u1".data ∧ '\n' ∉ "u1".data ∧
      ("u1".data : JStr).dropWhile isJsWhitespace = "u1".data ∧
      ',' ∉ "g1".data ∧ '\n' ∉ "g1".data ∧
      '\n' ∉ "Sun Oct 12 2025 10:00:00 GMT+0000".data ∧
      ("Sun Oct 12 2025 10:00:00 GMT+0000".data : JStr) ≠ [] ∧
      ("Sun Oct 12 2025 10:00:00 GMT+0000".data : JStr).reverse.dropWhile isJsWhitespace =
        ("Sun Oct 12 2025 10:00:00 GMT+0000".data : JStr).reverse) ∧
    (walRecover (walLine ⟨"u1".data, "g1".data, -3,
        "Sun Oct 12 2025 10:00:00 GMT+0000".data⟩)).map (fun r => (r.user_id, r.score)) =
      [(some "u1".data, some (-3))] :=
  ⟨by decide, C5_amended_roundtrip _ (by decide) (by decide) (by decide) (by decide)
    (by decide) (by decide) (by decide) (by decide)⟩

end LeaderSync
